import Mathlib

/-!
Verification of the codablellm extraction/decompilation core against its
natural-language specification.  Each section embeds one component of the
source tree (`src/codablellm/...`) as executable Lean definitions and proves
or refutes the frozen claims about it.
-/

namespace Codablellm

/-! ### Worker Pool Executor (`core/dashboard.py`, `ProcessPoolProgress`)

A submitted task either returns a result or raises.  Results are modelled as
natural numbers; Python truthiness of a result is `r != 0` (the pool's
`__next__` tests readiness with `any(self._new_results)`, which checks element
truthiness, not list emptiness).  The per-task completion callback
(`__enter__.callback`) appends successful results to `_new_results` and
advances the error counter on exceptions; `__next__` pops the *last* element
of `_new_results` and raises `StopIteration` when every future is done and
`any(_new_results)` is false. -/

inductive Outcome
  | success (r : Nat)
  | failure
  deriving DecidableEq, Repr

/-- State of one `ProcessPoolProgress`: outcomes of the futures that have not
completed yet, the `_new_results` list, the tracker's error counter, and the
results yielded to the iterating caller so far. -/
structure PoolState where
  pending : List Outcome
  ready : List Nat
  errors : Nat
  yielded : List Nat
  deriving DecidableEq, Repr

/-- Python `any(self._new_results)`: true iff some element is truthy. -/
def pyAny (l : List Nat) : Bool :=
  l.any (fun r => r != 0)

/-- Number of successful outcomes in a batch. -/
def countS (l : List Outcome) : Nat :=
  l.countP (fun o => match o with | .success _ => true | .failure => false)

/-- Number of raising outcomes in a batch. -/
def countF (l : List Outcome) : Nat :=
  l.countP (fun o => match o with | .success _ => false | .failure => true)

/-- One observable event of the pool: a completion callback firing for a
success (append to `_new_results`), a callback firing for a raised exception
(error counter incremented, nothing surfaced to the caller), or the caller's
`__next__` returning `self._new_results.pop()` — the *last* ready element —
which the code only does once `any(self._new_results)` is true. -/
inductive PoolStep : PoolState → PoolState → Prop
  | completeOk (front back : List Outcome) (ready : List Nat) (errors : Nat)
      (yielded : List Nat) (r : Nat) :
      PoolStep ⟨front ++ Outcome.success r :: back, ready, errors, yielded⟩
        ⟨front ++ back, ready ++ [r], errors, yielded⟩
  | completeErr (front back : List Outcome) (ready : List Nat) (errors : Nat)
      (yielded : List Nat) :
      PoolStep ⟨front ++ Outcome.failure :: back, ready, errors, yielded⟩
        ⟨front ++ back, ready, errors + 1, yielded⟩
  | pull (pending : List Outcome) (ready : List Nat) (errors : Nat)
      (yielded : List Nat) (r : Nat) :
      pyAny (ready ++ [r]) = true →
      PoolStep ⟨pending, ready ++ [r], errors, yielded⟩
        ⟨pending, ready, errors, yielded ++ [r]⟩

/-- Reachability over pool events. -/
def PoolReach : PoolState → PoolState → Prop :=
  Relation.ReflTransGen PoolStep

/-- `__next__` raises `StopIteration` exactly when every future is done and
`any(self._new_results)` is false — even if falsy results are still queued. -/
def StopIter (s : PoolState) : Prop :=
  s.pending = [] ∧ pyAny s.ready = false

/-- A batch of one task that returns the falsy result `0`: the callback queues
it, all futures are done, yet `any([0])` is false so `__next__` raises
`StopIteration` with the result still queued.  The caller obtains 0 results
and 0 errors from 1 submitted item, violating `yielded + errors == submitted`. -/
theorem C1_pool_conservation_failing_eval :
    PoolReach ⟨[Outcome.success 0], [], 0, []⟩ ⟨[], [0], 0, []⟩ ∧
    StopIter ⟨[], [0], 0, []⟩ ∧
    countS [Outcome.success 0] = 1 ∧
    (PoolState.mk [] [0] 0 []).yielded.length = 0 ∧
    (PoolState.mk [] [0] 0 []).errors = 0 := by
  refine ⟨?_, ⟨rfl, by decide⟩, by decide, rfl, rfl⟩
  exact Relation.ReflTransGen.single
    (PoolStep.completeOk [] [] [] 0 [] 0)

/-- Two tasks complete in the order `1`, `2` before the caller pulls; the two
pulls then return `2` and then `1` (`list.pop()` takes the most recent
element), so the yielded sequence `[2, 1]` differs from the completion order
`[1, 2]`: within-pool ordering is not completion order. -/
theorem C5_completion_order_counterexample :
    PoolStep ⟨[Outcome.success 1, Outcome.success 2], [], 0, []⟩
      ⟨[Outcome.success 2], [1], 0, []⟩ ∧
    PoolStep ⟨[Outcome.success 2], [1], 0, []⟩ ⟨[], [1, 2], 0, []⟩ ∧
    PoolStep ⟨[], [1, 2], 0, []⟩ ⟨[], [1], 0, [2]⟩ ∧
    PoolStep ⟨[], [1], 0, [2]⟩ ⟨[], [], 0, [2, 1]⟩ ∧
    StopIter ⟨[], [], 0, [2, 1]⟩ ∧
    ([2, 1] : List Nat) ≠ [1, 2] := by
  refine ⟨?_, ?_, ?_, ?_, ⟨rfl, by decide⟩, by decide⟩
  · exact PoolStep.completeOk [] [Outcome.success 2] [] 0 [] 1
  · exact PoolStep.completeOk [] [] [1] 0 [] 2
  · exact PoolStep.pull [] [1] 0 [] 2 (by decide)
  · exact PoolStep.pull [] [] 0 [2] 1 (by decide)

/-- All pending successes can complete in submission-list order while the
caller does not pull. -/
theorem poolReach_complete_all (rs : List Nat) (ready : List Nat) (errors : Nat)
    (yielded : List Nat) :
    PoolReach ⟨rs.map Outcome.success, ready, errors, yielded⟩
      ⟨[], ready ++ rs, errors, yielded⟩ := by
  induction rs generalizing ready with
  | nil => simpa using Relation.ReflTransGen.refl
  | cons r rs ih =>
      refine Relation.ReflTransGen.head
        (PoolStep.completeOk [] (rs.map Outcome.success) ready errors yielded r) ?_
      simpa [List.append_assoc] using ih (ready ++ [r])

/-- Once every task is done, repeated pulls drain the ready list from its end,
provided each remaining element is truthy. -/
theorem poolReach_drain (ready : List Nat) (errors : Nat) :
    ∀ yielded : List Nat, (∀ r ∈ ready, r ≠ 0) →
      PoolReach ⟨[], ready, errors, yielded⟩
        ⟨[], [], errors, yielded ++ ready.reverse⟩ := by
  induction ready using List.reverseRecOn with
  | nil =>
      intro yielded _
      simpa using Relation.ReflTransGen.refl
  | append_singleton l r ih =>
      intro yielded h
      have hr : r ≠ 0 := h r (by simp)
      have hany : pyAny (l ++ [r]) = true := by
        simp [pyAny, hr]
      refine Relation.ReflTransGen.head
        (PoolStep.pull [] l errors yielded r hany) ?_
      have := ih (yielded ++ [r]) (fun x hx => h x (by simp [hx]))
      simpa [List.append_assoc] using this

/-- Amended C5: within one pool the pull operation is LIFO over the ready
results.  In particular, when all tasks complete (in submission order, all
with truthy results) before the caller starts pulling, the yielded sequence is
the *reverse* of the completion order; it equals completion order only when at
most one result is ready at each pull. -/
theorem C5_lifo_order (rs : List Nat) (h : ∀ r ∈ rs, r ≠ 0) :
    PoolReach ⟨rs.map Outcome.success, [], 0, []⟩ ⟨[], [], 0, rs.reverse⟩ := by
  refine Relation.ReflTransGen.trans (poolReach_complete_all rs [] 0 []) ?_
  simpa using poolReach_drain rs 0 [] h

/-- Witness for `C5_lifo_order` at the batch `[1, 2]`. -/
theorem C5_lifo_order_witness :
    PoolReach ⟨[Outcome.success 1, Outcome.success 2], [], 0, []⟩
      ⟨[], [], 0, [2, 1]⟩ :=
  C5_lifo_order [1, 2] (by decide)

/-! ### Repository Lifecycle Manager (`repoman.py`)

`execute_command` runs the command (`subprocess.run(..., check=True)`); a
nonzero exit raises `CalledProcessError`, which the `except` block catches.
Only the `interactive` handler with an `abort` response re-raises; for the
handlers `none` and `ignore` the caught exception is never re-raised — the
function falls off the end of the `except` block and returns normally.
`manage` runs the build phase (via `build`, which calls `execute_command`
without an `error_handler`, so the handler is the default `'none'`), then
yields to the pipeline body, then runs the cleanup command if configured.

A command's scripted exit statuses are a list of `Bool` (`true` = exit 0),
one per run of the command; interactive prompt responses are scripted as a
list. -/

inductive CommandErrorHandler
  | interactive
  | ignore
  | nonePolicy
  deriving DecidableEq, Repr

inductive PromptResp
  | retry
  | ignore
  | abort
  deriving DecidableEq, Repr

/-- `execute_command`: each run of the external command consumes the next
scripted exit status; on failure, the `interactive` handler consumes the next
prompt response (`retry` re-runs the command, `abort` re-raises, `ignore`
returns normally), while the handlers `none` and `ignore` both swallow the
caught `CalledProcessError` and return normally (the `except` block has no
bare `raise` outside the `interactive` branch).  An exhausted script is
modelled as success for exits and as `abort` for responses. -/
def execute_command : List Bool → CommandErrorHandler → List PromptResp →
    Except String Unit
  | [], _, _ => .ok ()
  | true :: _, _, _ => .ok ()
  | false :: rest, .interactive, .retry :: rs => execute_command rest .interactive rs
  | false :: _, .interactive, .ignore :: _ => .ok ()
  | false :: _, .interactive, .abort :: _ => .error "CalledProcessError"
  | false :: _, .interactive, [] => .error "CalledProcessError"
  | false :: _, .ignore, _ => .ok ()
  | false :: _, .nonePolicy, _ => .ok ()

/-- `manage`: run the build command, then the pipeline body, then the optional
cleanup command.  Returns `true` iff the pipeline body executed.  The build
phase propagates only what `execute_command` raises. -/
def manage (buildExits : List Bool) (handler : CommandErrorHandler)
    (resps : List PromptResp)
    (cleanup : Option (List Bool × CommandErrorHandler × List PromptResp)) :
    Except String Bool := do
  let _ ← execute_command buildExits handler resps
  let bodyRan := true
  match cleanup with
  | some (ce, ch, cr) => do
      let _ ← execute_command ce ch cr
      pure bodyRan
  | none => pure bodyRan

/-- Evaluation at the failing input for C2: a build command that exits nonzero
under error policy `none` does *not* propagate — `execute_command` returns
normally and the pipeline body executes — contradicting the spec and the
repository's own `test_manage`, which expects `CalledProcessError` to be
raised under the `none` policy. -/
theorem C2_manage_none_policy_eval :
    execute_command [false] CommandErrorHandler.nonePolicy [] = .ok () ∧
    manage [false] CommandErrorHandler.nonePolicy [] none = .ok true ∧
    execute_command [false] CommandErrorHandler.ignore [] = .ok () := by
  exact ⟨rfl, rfl, rfl⟩

/-! ### Function records (`core/function.py`)

`SourceFunction` is a frozen dataclass whose `__post_init__` raises
`ValueError` when `start_byte < 0` or `start_byte > end_byte`, and `KeyError`
when a metadata key collides with one of the record's own field names.
Note the byte-range check is `start_byte > end_byte`: equality of the two
bytes is accepted (and exercised by `with_definition('')`). -/

structure SourceFunction where
  uid : String
  path : String
  language : String
  definition : String
  name : String
  start_byte : Int
  end_byte : Int
  class_name : Option String
  metadata : List (String × String)
  deriving DecidableEq, Repr

/-- The dataclass's own field names (`asdict(self).keys()`). -/
def sourceFunctionFields : List String :=
  ["uid", "path", "language", "definition", "name", "start_byte", "end_byte",
   "class_name", "metadata"]

/-- Constructing a `SourceFunction` runs `__post_init__`: the checks, in
source order, are `start_byte < 0`, `start_byte > end_byte`, and metadata-key
collision with the record's own fields. -/
def SourceFunction.post_init (uid path language definition name : String)
    (start_byte end_byte : Int) (class_name : Option String)
    (metadata : List (String × String)) : Except String SourceFunction :=
  if start_byte < 0 then
    .error "ValueError: Start byte must be a non-negative integer"
  else if start_byte > end_byte then
    .error "ValueError: Start byte must be less than end byte"
  else if metadata.any (fun kv => sourceFunctionFields.contains kv.1) then
    .error "KeyError: Cannot set metadata to existing field"
  else
    .ok ⟨uid, path, language, definition, name, start_byte, end_byte,
      class_name, metadata⟩

/-- Counterexample to C7 as stated: construction with `start_byte = end_byte`
(an empty half-open range, violating `start < end`) succeeds. -/
theorem C7_equal_bytes_accepted :
    SourceFunction.post_init "a.c::f" "a.c" "C" "" "f" 0 0 none [] =
      .ok ⟨"a.c::f", "a.c", "C", "", "f", 0, 0, none, []⟩ := by
  rfl

/-- Amended C7: construction succeeds only when `0 ≤ start_byte ≤ end_byte`
(the check in the source is `start_byte > end_byte`, so the empty range
`start = end` is accepted); any violation of `0 ≤ start ≤ end` is rejected at
construction time by raising. -/
theorem C7_byte_range_amended (uid path language definition name : String)
    (s e : Int) (class_name : Option String)
    (metadata : List (String × String)) :
    (∀ f, SourceFunction.post_init uid path language definition name s e
        class_name metadata = .ok f → 0 ≤ s ∧ s ≤ e) ∧
    (s < 0 ∨ e < s → ∃ msg, SourceFunction.post_init uid path language
        definition name s e class_name metadata = .error msg) := by
  constructor
  · intro f hf
    unfold SourceFunction.post_init at hf
    split_ifs at hf with h1 h2 h3
    exact ⟨le_of_not_lt h1, le_of_not_lt h2⟩
  · intro h
    unfold SourceFunction.post_init
    rcases h with h | h
    · exact ⟨_, by rw [if_pos h]⟩
    · by_cases h1 : s < 0
      · exact ⟨_, by rw [if_pos h1]⟩
      · exact ⟨_, by rw [if_neg h1, if_pos h]⟩

/-- Witness for `C7_byte_range_amended` at `start_byte = -1`, `end_byte = 0`. -/
theorem C7_byte_range_amended_witness :
    ∃ msg, SourceFunction.post_init "u" "p" "C" "d" "n" (-1) 0 none [] =
      .error msg :=
  (C7_byte_range_amended "u" "p" "C" "d" "n" (-1) 0 none []).2
    (Or.inl (by decide))

/-! ### Python dict model

`SourceCodeDataset.__init__` builds `{f.uid: f for f in functions}` and
`DecompiledCodeDataset.__init__` builds `{m[0].uid: m for m in mappings}`.
A Python dict is an insertion-ordered association list: inserting an existing
key replaces its value in place, inserting a fresh key appends at the end. -/

def dictInsert {κ α : Type} [DecidableEq κ] (m : List (κ × α)) (k : κ) (v : α) :
    List (κ × α) :=
  match m with
  | [] => [(k, v)]
  | (k', v') :: rest =>
      if k' = k then (k, v) :: rest else (k', v') :: dictInsert rest k v

def lookupDict {κ α : Type} [DecidableEq κ] (m : List (κ × α)) (u : κ) :
    Option α :=
  match m with
  | [] => none
  | (k', v) :: rest => if k' = u then some v else lookupDict rest u

def dictKeys {κ α : Type} (m : List (κ × α)) : List κ :=
  m.map Prod.fst

theorem lookupDict_dictInsert {κ α : Type} [DecidableEq κ]
    (m : List (κ × α)) (k u : κ) (v : α) :
    lookupDict (dictInsert m k v) u =
      if k = u then some v else lookupDict m u := by
  induction m with
  | nil => simp [dictInsert, lookupDict]
  | cons p rest ih =>
      obtain ⟨k', v'⟩ := p
      by_cases hk : k' = k
      · subst hk
        by_cases hu : k' = u <;> simp [dictInsert, lookupDict, hu]
      · by_cases hu : k' = u
        · subst hu
          have : ¬k = k' := fun h => hk h.symm
          simp [dictInsert, lookupDict, hk, this]
        · simp [dictInsert, lookupDict, hk, hu, ih]

theorem mem_dictKeys_dictInsert {κ α : Type} [DecidableEq κ]
    (m : List (κ × α)) (k x : κ) (v : α) :
    x ∈ dictKeys (dictInsert m k v) ↔ x = k ∨ x ∈ dictKeys m := by
  induction m with
  | nil => simp [dictInsert, dictKeys]
  | cons p rest ih =>
      obtain ⟨k', v'⟩ := p
      by_cases hk : k' = k
      · subst hk
        simp [dictInsert, dictKeys]
      · simp [dictInsert, dictKeys, hk] at ih ⊢
        tauto

theorem nodup_dictKeys_dictInsert {κ α : Type} [DecidableEq κ]
    (m : List (κ × α)) (k : κ) (v : α) (h : (dictKeys m).Nodup) :
    (dictKeys (dictInsert m k v)).Nodup := by
  induction m with
  | nil => simp [dictInsert, dictKeys]
  | cons p rest ih =>
      obtain ⟨k', v'⟩ := p
      simp only [dictKeys, List.map_cons, List.nodup_cons] at h
      by_cases hk : k' = k
      · subst hk
        simpa [dictInsert, dictKeys] using h
      · have hrest := ih h.2
        have hmem : k' ∉ dictKeys (dictInsert rest k v) := by
          rw [mem_dictKeys_dictInsert]
          rintro (rfl | hx)
          · exact hk rfl
          · exact h.1 hx
        have hcons : (dictKeys ((k', v') :: dictInsert rest k v)).Nodup := by
          simp only [dictKeys, List.map_cons, List.nodup_cons]
          exact ⟨hmem, hrest⟩
        simpa [dictInsert, hk] using hcons

/-- `SourceCodeDataset.__init__`: the dataset's mapping keyed by `uid`. -/
def SourceCodeDataset.build (functions : List SourceFunction) :
    List (String × SourceFunction) :=
  functions.foldl (fun m f => dictInsert m f.uid f) []

theorem SourceCodeDataset.build_append (fs : List SourceFunction)
    (f : SourceFunction) :
    SourceCodeDataset.build (fs ++ [f]) =
      dictInsert (SourceCodeDataset.build fs) f.uid f := by
  simp [SourceCodeDataset.build]

theorem mem_dictKeys_build (fs : List SourceFunction) (x : String) :
    x ∈ dictKeys (SourceCodeDataset.build fs) ↔
      x ∈ fs.map SourceFunction.uid := by
  induction fs using List.reverseRecOn with
  | nil => simp [SourceCodeDataset.build, dictKeys]
  | append_singleton l a ih =>
      rw [SourceCodeDataset.build_append, mem_dictKeys_dictInsert, ih]
      simp [List.map_append, List.mem_append, or_comm]

theorem nodup_dictKeys_build (fs : List SourceFunction) :
    (dictKeys (SourceCodeDataset.build fs)).Nodup := by
  induction fs using List.reverseRecOn with
  | nil => simp [SourceCodeDataset.build, dictKeys]
  | append_singleton l a ih =>
      rw [SourceCodeDataset.build_append]
      exact nodup_dictKeys_dictInsert _ _ _ ih

theorem dictKeys_build_toFinset (fs : List SourceFunction) :
    (dictKeys (SourceCodeDataset.build fs)).toFinset =
      (fs.map SourceFunction.uid).toFinset := by
  ext x
  simp [List.mem_toFinset, mem_dictKeys_build]

/-- C8: building a source `Dataset` from a list of records is
last-write-wins on `uid` — looking up any uid yields the *last* record with
that uid in list order — and the dataset's size is the number of distinct
uids in the list. -/
theorem C8_last_write_wins (fs : List SourceFunction) (u : String) :
    lookupDict (SourceCodeDataset.build fs) u =
      (fs.filter (fun f => f.uid = u)).getLast? ∧
    (SourceCodeDataset.build fs).length =
      (fs.map SourceFunction.uid).toFinset.card := by
  constructor
  · induction fs using List.reverseRecOn with
    | nil => simp [SourceCodeDataset.build, lookupDict]
    | append_singleton l a ih =>
        rw [SourceCodeDataset.build_append, lookupDict_dictInsert]
        by_cases hu : a.uid = u
        · simp [hu, List.filter_append]
        · simp [hu, List.filter_append, ih]
  · calc (SourceCodeDataset.build fs).length
        = (dictKeys (SourceCodeDataset.build fs)).length := by
          simp [dictKeys]
      _ = (dictKeys (SourceCodeDataset.build fs)).toFinset.card :=
          (List.toFinset_card_of_nodup (nodup_dictKeys_build fs)).symm
      _ = (fs.map SourceFunction.uid).toFinset.card := by
          rw [dictKeys_build_toFinset]

/-! ### Checkpoint Store (`core/utils.py` and `core/extractor.py`)

`save_checkpoint_file(prefix, contents)` writes
`<tempdir>/<prefix>_<pid>.json` containing the JSON array
`[c.to_json() for c in contents]`, overwriting any prior file of the same
name.  `load_checkpoint_data(prefix, delete_on_load)` globs
`<tempdir>/<prefix>_*`, concatenates the deserialized contents of every
matching file, and unlinks each one when `delete_on_load` is true; the
extraction caller (`extractor.load_checkpoint_data`) passes
`delete_on_load=True`.  File names are modelled as `List Char` and the shared
temporary directory as an insertion-ordered map from file name to (typed)
JSON content. -/

structure SourceFunctionJSONObject where
  uid : String
  path : String
  language : String
  definition : String
  name : String
  start_byte : Int
  end_byte : Int
  class_name : Option String
  metadata : List (String × String)
  deriving DecidableEq, Repr

/-- `SourceFunction.to_json`. -/
def SourceFunction.to_json (f : SourceFunction) : SourceFunctionJSONObject :=
  ⟨f.uid, f.path, f.language, f.definition, f.name, f.start_byte, f.end_byte,
   f.class_name, f.metadata⟩

/-- `SourceFunction.from_json`: calls the dataclass constructor, which re-runs
`__post_init__` validation. -/
def SourceFunction.from_json (o : SourceFunctionJSONObject) :
    Except String SourceFunction :=
  SourceFunction.post_init o.uid o.path o.language o.definition o.name
    o.start_byte o.end_byte o.class_name o.metadata

/-- The invariant `__post_init__` guarantees for every `SourceFunction` the
Python program can ever hold. -/
def SourceFunction.Valid (f : SourceFunction) : Prop :=
  0 ≤ f.start_byte ∧ f.start_byte ≤ f.end_byte ∧
    f.metadata.any (fun kv => sourceFunctionFields.contains kv.1) = false

instance (f : SourceFunction) : Decidable f.Valid := by
  unfold SourceFunction.Valid
  infer_instance

theorem from_json_to_json (f : SourceFunction) (h : f.Valid) :
    SourceFunction.from_json f.to_json = .ok f := by
  obtain ⟨h1, h2, h3⟩ := h
  unfold SourceFunction.from_json SourceFunction.to_json
    SourceFunction.post_init
  rw [if_neg (not_lt.mpr h1), if_neg (not_lt.mpr h2),
    if_neg (by simp only [h3]; decide)]

/-- The shared temporary directory: file name (a character list) to content. -/
structure TempDir where
  files : List (List Char × List SourceFunctionJSONObject)
  deriving Repr

/-- `utils.get_checkpoint_file`: `f'{prefix}_{os.getpid()}.json'`. -/
def checkpointFileName (pfx pid : List Char) : List Char :=
  pfx ++ '_' :: (pid ++ ".json".toList)

/-- `utils.get_checkpoint_files` globs `f'{prefix}_*'`: a name matches iff it
starts with `prefix` followed by an underscore. -/
def globMatches (pfx name : List Char) : Bool :=
  List.isPrefixOf (pfx ++ ['_']) name

/-- `utils.save_checkpoint_file`: write (or overwrite) this process's
checkpoint file. -/
def save_checkpoint_file (dir : TempDir) (pfx pid : List Char)
    (contents : List SourceFunction) : TempDir :=
  ⟨dictInsert dir.files (checkpointFileName pfx pid)
    (contents.map SourceFunction.to_json)⟩

/-- `utils.load_checkpoint_data`: concatenate the contents of every matching
file, removing each one when `delete_on_load` is true. -/
def load_checkpoint_data (dir : TempDir) (pfx : List Char)
    (delete_on_load : Bool) :
    List SourceFunctionJSONObject × TempDir :=
  ((dir.files.filter (fun p => globMatches pfx p.1)).flatMap Prod.snd,
   if delete_on_load then
     ⟨dir.files.filter (fun p => !globMatches pfx p.1)⟩
   else dir)

theorem isPrefixOf_self_append (l t : List Char) :
    List.isPrefixOf l (l ++ t) = true := by
  induction l with
  | nil => simp [List.isPrefixOf]
  | cons a as ih => simp [List.isPrefixOf, ih]

theorem dictInsert_eq_append {κ α : Type} [DecidableEq κ]
    (m : List (κ × α)) (k : κ) (v : α) (h : ∀ p ∈ m, p.1 ≠ k) :
    dictInsert m k v = m ++ [(k, v)] := by
  induction m with
  | nil => rfl
  | cons p rest ih =>
      obtain ⟨n, c⟩ := p
      have hne : n ≠ k := h (n, c) (List.mem_cons_self _ _)
      simp only [dictInsert, if_neg hne, List.cons_append, List.cons.injEq,
        true_and]
      exact ih (fun q hq => h q (List.mem_cons_of_mem _ hq))

theorem map_from_json_map_to_json (records : List SourceFunction)
    (hvalid : ∀ r ∈ records, r.Valid) :
    (records.map SourceFunction.to_json).map SourceFunction.from_json =
      records.map .ok := by
  induction records with
  | nil => rfl
  | cons r rs ih =>
      simp only [List.map_cons, List.cons.injEq]
      exact ⟨from_json_to_json r (hvalid r (List.mem_cons_self _ _)),
        ih (fun x hx => hvalid x (List.mem_cons_of_mem _ hx))⟩

theorem globMatches_checkpointFileName (pfx pid : List Char) :
    globMatches pfx (checkpointFileName pfx pid) = true := by
  unfold globMatches checkpointFileName
  have : pfx ++ '_' :: (pid ++ ".json".toList) =
      (pfx ++ ['_']) ++ (pid ++ ".json".toList) := by simp
  rw [this]
  exact isPrefixOf_self_append _ _

/-- C4 (checkpoint round trip): starting from a temp directory holding no
file that matches the prefix, saving K records and then loading with
deletion-on-load (as the extraction caller does) returns exactly those K
records — deserializing each loaded object gives back the saved record, in
order — and a second immediate load returns the empty list. -/
theorem C4_checkpoint_round_trip (dir : TempDir) (pfx pid : List Char)
    (records : List SourceFunction)
    (hclean : ∀ p ∈ dir.files, globMatches pfx p.1 = false)
    (hvalid : ∀ r ∈ records, r.Valid) :
    ((load_checkpoint_data (save_checkpoint_file dir pfx pid records)
        pfx true).1.map SourceFunction.from_json = records.map .ok) ∧
    (load_checkpoint_data
        (load_checkpoint_data (save_checkpoint_file dir pfx pid records)
          pfx true).2 pfx true).1 = [] := by
  have hins : dictInsert dir.files (checkpointFileName pfx pid)
      (records.map SourceFunction.to_json) =
      dir.files ++ [(checkpointFileName pfx pid,
        records.map SourceFunction.to_json)] := by
    refine dictInsert_eq_append _ _ _ ?_
    intro p hp he
    have hc := hclean p hp
    rw [he, globMatches_checkpointFileName] at hc
    simp at hc
  have hfilter_clean : dir.files.filter (fun p => globMatches pfx p.1) = [] :=
    List.filter_eq_nil_iff.mpr (fun p hp => by simp [hclean p hp])
  have hfilter_keep :
      dir.files.filter (fun p => !globMatches pfx p.1) = dir.files :=
    List.filter_eq_self.mpr (fun p hp => by simp [hclean p hp])
  have hload1 : (load_checkpoint_data (save_checkpoint_file dir pfx pid
      records) pfx true).1 = records.map SourceFunction.to_json := by
    simp [load_checkpoint_data, save_checkpoint_file, hins,
      List.filter_append, hfilter_clean, globMatches_checkpointFileName]
  have hload2 : (load_checkpoint_data (save_checkpoint_file dir pfx pid
      records) pfx true).2 = ⟨dir.files⟩ := by
    simp [load_checkpoint_data, save_checkpoint_file, hins,
      List.filter_append, hfilter_keep, globMatches_checkpointFileName]
  constructor
  · rw [hload1]
    exact map_from_json_map_to_json records hvalid
  · rw [hload2]
    simp [load_checkpoint_data, hfilter_clean]

/-- Witness for `C4_checkpoint_round_trip`: an empty temp directory and one
concrete record. -/
theorem C4_checkpoint_round_trip_witness :
    ((load_checkpoint_data
        (save_checkpoint_file ⟨[]⟩ "cp".toList "42".toList
          [⟨"a.c::f", "a.c", "C", "int f;", "f", 0, 6, none, []⟩])
        "cp".toList true).1.map SourceFunction.from_json =
      [⟨"a.c::f", "a.c", "C", "int f;", "f", 0, 6, none, []⟩].map .ok) ∧
    (load_checkpoint_data
        (load_checkpoint_data
          (save_checkpoint_file ⟨[]⟩ "cp".toList "42".toList
            [⟨"a.c::f", "a.c", "C", "int f;", "f", 0, 6, none, []⟩])
          "cp".toList true).2 "cp".toList true).1 = [] :=
  C4_checkpoint_round_trip ⟨[]⟩ "cp".toList "42".toList
    [⟨"a.c::f", "a.c", "C", "int f;", "f", 0, 6, none, []⟩]
    (by intro p hp; simp at hp)
    (by intro r hr; simp at hr; subst hr; decide)

/-! ### Extraction pipeline configuration (`core/extractor.py`, `ExtractConfig`)

`ExtractConfig.__post_init__` validates, in order: `max_workers` (the check is
`if self.max_workers and self.max_workers < 1`, so `None` *and* `0` are falsy
and skip the check), overlapping `exclude_subpaths`/`exclusive_subpaths`,
negative `checkpoint`, and that every `extractor_args`/`extractor_kwargs` key
names a registered extractor (the registry holds only `"C"`). -/

def EXTRACTORS : List String := ["C"]

structure ExtractConfig where
  max_workers : Option Int
  checkpoint : Int
  exclude_subpaths : List String
  exclusive_subpaths : List String
  extractor_args_keys : List String
  extractor_kwargs_keys : List String
  deriving DecidableEq, Repr

/-- Python truthiness test `self.max_workers and self.max_workers < 1`:
`None` and `0` are falsy, so only a truthy (nonzero) worker count below 1 —
i.e. a negative one — fails. -/
def badWorkers : Option Int → Bool
  | none => false
  | some w => (w != 0) && decide (w < 1)

/-- `ExtractConfig.__post_init__`. -/
def ExtractConfig.post_init (c : ExtractConfig) : Except String ExtractConfig :=
  if badWorkers c.max_workers then
    .error "ValueError: Max workers must be a positive integer"
  else if c.exclude_subpaths.any (fun p => c.exclusive_subpaths.contains p) then
    .error "ValueError: Cannot have overlapping paths"
  else if c.checkpoint < 0 then
    .error "ValueError: Checkpoint must be a non-negative integer"
  else if c.extractor_args_keys.any (fun e => !EXTRACTORS.contains e) then
    .error "ValueError: not a known extractor"
  else if c.extractor_kwargs_keys.any (fun e => !EXTRACTORS.contains e) then
    .error "ValueError: not a known extractor"
  else
    .ok c

/-- Counterexample to C6 as stated: a worker count of `0` is falsy in Python,
so `ExtractConfig(max_workers=0)` passes validation without raising. -/
theorem C6_zero_workers_accepted :
    ExtractConfig.post_init ⟨some 0, 10, [], [], [], []⟩ =
      .ok ⟨some 0, 10, [], [], [], []⟩ := by
  rfl

/-- Amended C6: a *negative* worker count, a negative checkpoint interval, or
overlapping exclude/exclusive subpath sets each make configuration
construction raise immediately; a worker count of exactly `0` is falsy and is
accepted as if unspecified. -/
theorem C6_validation_amended (c : ExtractConfig)
    (h : (∃ w, c.max_workers = some w ∧ w < 0) ∨ c.checkpoint < 0 ∨
      c.exclude_subpaths.any (fun p => c.exclusive_subpaths.contains p) = true) :
    ∃ msg, c.post_init = .error msg := by
  unfold ExtractConfig.post_init
  by_cases hw : badWorkers c.max_workers = true
  · exact ⟨_, by rw [if_pos hw]⟩
  · rcases h with ⟨w, hsome, hneg⟩ | hcp | hov
    · exfalso
      apply hw
      rw [hsome]
      simp only [badWorkers, Bool.and_eq_true, bne_iff_ne, ne_eq,
        decide_eq_true_eq]
      omega
    · by_cases hov : c.exclude_subpaths.any
          (fun p => c.exclusive_subpaths.contains p) = true
      · exact ⟨_, by rw [if_neg hw, if_pos hov]⟩
      · exact ⟨_, by rw [if_neg hw, if_neg hov, if_pos hcp]⟩
    · exact ⟨_, by rw [if_neg hw, if_pos hov]⟩

/-- Witness for `C6_validation_amended` at `max_workers = -1`. -/
theorem C6_validation_amended_witness :
    ∃ msg, ExtractConfig.post_init ⟨some (-1), 10, [], [], [], []⟩ =
      .error msg :=
  C6_validation_amended ⟨some (-1), 10, [], [], [], []⟩
    (Or.inl ⟨-1, rfl, by decide⟩)

/-! ### Decompiled function stripping (`core/function.py`, `DecompiledFunction`)

`to_stripped` runs the tree-sitter query `GET_C_SYMBOLS_QUERY` over the
decompiled `definition` and rewrites every captured function symbol (function
definition declarators and call-expression identifiers) to a fresh
`sub_<uuid-prefix>` placeholder, recorded once per original symbol in
`symbol_mapping` (`dict.setdefault`, insertion-ordered); each rewrite also
replaces the symbol in the `assembly` text.  The parser is an external
collaborator, so a definition (and the assembly) is modelled as the token
list the query yields: `sym` tokens are the captured function symbols, `txt`
tokens everything else.  Placeholder generation (`uuid.uuid4()`) is modelled
by a counter; every generated placeholder starts with `"sub_"`, which is the
only property the code relies on.  After the rewrite the code evaluates
`first_function, *_ = (f for f in symbol_mapping.values() if
f.startswith('sub_'))`, which raises `ValueError` when the mapping is empty,
and otherwise rebuilds the record with the same `uid`, `path` and
`architecture` and with `name` replaced by that first placeholder. -/

inductive CTok
  | sym (s : String)
  | txt (s : String)
  deriving DecidableEq, Repr

structure DecompiledFunction where
  uid : String
  path : String
  definition : List CTok
  name : String
  assembly : List CTok
  architecture : String
  deriving DecidableEq, Repr

instance {ε α : Type} [DecidableEq ε] [DecidableEq α] :
    DecidableEq (Except ε α) := fun x y =>
  match x, y with
  | .ok a, .ok b =>
      if h : a = b then isTrue (by rw [h])
      else isFalse (by intro he; cases he; exact h rfl)
  | .error a, .error b =>
      if h : a = b then isTrue (by rw [h])
      else isFalse (by intro he; cases he; exact h rfl)
  | .ok _, .error _ => isFalse (by intro he; cases he)
  | .error _, .ok _ => isFalse (by intro he; cases he)

/-- Python `s.startswith(pre)`. -/
def pyStartsWith (s pre : String) : Bool :=
  List.isPrefixOf pre.data s.data

/-- Placeholder for the `n`-th distinct symbol (`f'sub_{uuid4-prefix}'` in the
source; the uuid is modelled by the insertion counter). -/
def freshSym (n : Nat) : String := "sub_" ++ toString n

/-- `symbol_mapping.setdefault(orig, fresh)`. -/
def setdefaultSym (m : List (String × String)) (k : String) :
    List (String × String) × String :=
  match m.find? (fun p => p.1 == k) with
  | some p => (m, p.2)
  | none => (m ++ [(k, freshSym m.length)], freshSym m.length)

/-- `assembly.replace(orig_function, stripped_symbol)` (the source replaces
raw substrings; at token level this renames the symbol's occurrences). -/
def replaceSym (toks : List CTok) (orig repl : String) : List CTok :=
  toks.map fun t =>
    match t with
    | .sym s => if s = orig then .sym repl else .sym s
    | .txt s => .txt s

/-- One pass of `match_and_edit` with the `strip` callback: rewrite each
captured symbol to its placeholder, threading the symbol mapping and the
assembly. -/
def stripFold : List CTok → List (String × String) → List CTok →
    List CTok × List (String × String) × List CTok
  | [], m, asm => ([], m, asm)
  | .txt s :: rest, m, asm =>
      let r := stripFold rest m asm
      (.txt s :: r.1, r.2)
  | .sym s :: rest, m, asm =>
      let sd := setdefaultSym m s
      let r := stripFold rest sd.1 (replaceSym asm s sd.2)
      (.sym sd.2 :: r.1, r.2)

/-- `DecompiledFunction.to_stripped`. -/
def DecompiledFunction.to_stripped (f : DecompiledFunction) :
    Except String DecompiledFunction :=
  match (((stripFold f.definition [] f.assembly).2.1.map Prod.snd).filter
      (fun v => pyStartsWith v "sub_")) with
  | [] => .error "ValueError: not enough values to unpack"
  | first :: _ =>
      .ok ⟨f.uid, f.path, (stripFold f.definition [] f.assembly).1, first,
        (stripFold f.definition [] f.assembly).2.2, f.architecture⟩

theorem stripFold_all_txt (toks : List CTok) (m : List (String × String))
    (asm : List CTok) (h : ∀ t ∈ toks, ∃ s, t = CTok.txt s) :
    (stripFold toks m asm).2.1 = m := by
  induction toks with
  | nil => rfl
  | cons t rest ih =>
      obtain ⟨s, rfl⟩ := h t (List.mem_cons_self _ _)
      exact ih (fun x hx => h x (List.mem_cons_of_mem _ hx))

/-- C9: a decompiled record whose definition contains no function-definition
or call-expression identifiers leaves `symbol_mapping` empty, and
`to_stripped` then raises (`first_function, *_ = ...` on an empty generator)
instead of returning the record unchanged. -/
theorem C9_empty_symbol_map_raises (f : DecompiledFunction)
    (h : ∀ t ∈ f.definition, ∃ s, t = CTok.txt s) :
    f.to_stripped = .error "ValueError: not enough values to unpack" := by
  unfold DecompiledFunction.to_stripped
  rw [stripFold_all_txt f.definition [] f.assembly h]
  rfl

/-- Witness for `C9_empty_symbol_map_raises`: a definition with no function
symbols. -/
theorem C9_empty_symbol_map_raises_witness :
    DecompiledFunction.to_stripped ⟨"u", "p", [CTok.txt "int x;"], "f", [],
      "x86"⟩ = .error "ValueError: not enough values to unpack" :=
  C9_empty_symbol_map_raises ⟨"u", "p", [CTok.txt "int x;"], "f", [], "x86"⟩
    (by intro t ht; simp at ht; exact ⟨"int x;", ht⟩)

/-- C10: whenever stripping succeeds, the stripped record keeps the
original's `uid`, `path` and `architecture`, and its `name` is one of the
generated placeholders — a string starting with `"sub_"` — not the original
name. -/
theorem C10_stripped_frame (f g : DecompiledFunction)
    (h : f.to_stripped = .ok g) :
    g.uid = f.uid ∧ g.path = f.path ∧ g.architecture = f.architecture ∧
      pyStartsWith g.name "sub_" = true := by
  unfold DecompiledFunction.to_stripped at h
  cases hf : (((stripFold f.definition [] f.assembly).2.1.map Prod.snd).filter
      (fun v => pyStartsWith v "sub_")) with
  | nil => rw [hf] at h; exact absurd h (by simp)
  | cons a rest =>
      rw [hf] at h
      have hg : g = ⟨f.uid, f.path, (stripFold f.definition [] f.assembly).1,
          a, (stripFold f.definition [] f.assembly).2.2, f.architecture⟩ := by
        cases h
        rfl
      have ha : a ∈ (((stripFold f.definition [] f.assembly).2.1.map
          Prod.snd).filter (fun v => pyStartsWith v "sub_")) := by
        rw [hf]
        exact List.mem_cons_self _ _
      have := (List.mem_filter.mp ha).2
      subst hg
      exact ⟨rfl, rfl, rfl, this⟩

/-- Witness for `C10_stripped_frame`: a record with one call symbol. -/
theorem C10_stripped_frame_witness :
    DecompiledFunction.uid ⟨"u", "p", [CTok.sym "sub_0"], "sub_0",
        [CTok.sym "sub_0"], "arm"⟩ = "u" ∧
      DecompiledFunction.path ⟨"u", "p", [CTok.sym "sub_0"], "sub_0",
        [CTok.sym "sub_0"], "arm"⟩ = "p" ∧
      DecompiledFunction.architecture ⟨"u", "p", [CTok.sym "sub_0"], "sub_0",
        [CTok.sym "sub_0"], "arm"⟩ = "arm" ∧
      pyStartsWith (DecompiledFunction.name ⟨"u", "p",
        [CTok.sym "sub_0"], "sub_0", [CTok.sym "sub_0"], "arm"⟩) "sub_" =
        true :=
  C10_stripped_frame ⟨"u", "p", [CTok.sym "foo"], "foo", [CTok.sym "foo"],
    "arm"⟩ ⟨"u", "p", [CTok.sym "sub_0"], "sub_0", [CTok.sym "sub_0"], "arm"⟩
    (by decide)

/-! ### Correlation Engine (`dataset.py`,
`DecompiledCodeDataset._from_dataset_and_decompiled`)

The engine groups every source function of the dataset under its correlation
key (`SourceFunction.get_function_name(uid)` — `setdefault(key, []).append`),
then walks the supplied decompiled functions in order: a record whose `name`
is not a key of the index is dropped silently; a matching record is
(optionally, per the `stripped` flag) replaced by its stripped form, then
paired with a nested `SourceCodeDataset` built from the full candidate group
looked up under the (possibly new) `name`.  The resulting pairs are keyed by
the decompiled record's `uid` (`DecompiledCodeDataset.__init__`). -/

/-- Characters of `l` after its last occurrence of `sep` (all of `l` when
`sep` does not occur). -/
def afterLastSep (sep : Char) (l : List Char) : List Char :=
  l.foldl (fun acc c => if c = sep then [] else acc ++ [c]) []

/-- Modelled from the spec: `SourceFunction.get_function_name` is invoked by
`DecompiledCodeDataset._from_dataset_and_decompiled` (dataset.py line 269)
but is defined nowhere under `src/`.  Per the spec, the Correlation Key is
derived from the record's uid (`"<file>::<Class.>name"`) by stripping the
path and class qualifiers, leaving the bare function name: the characters
after the last `:` and then after the last `.`. -/
def SourceFunction.get_function_name (uid : String) : String :=
  ⟨afterLastSep '.' (afterLastSep ':' uid.data)⟩

/-- `potential_mappings.setdefault(key, []).append(f)`: group under an
existing key in place, or append a fresh singleton group. -/
def pmInsert (m : List (String × List SourceFunction)) (k : String)
    (f : SourceFunction) : List (String × List SourceFunction) :=
  match m with
  | [] => [(k, [f])]
  | (k', g) :: rest =>
      if k' = k then (k', g ++ [f]) :: rest
      else (k', g) :: pmInsert rest k f

/-- The first loop of `_from_dataset_and_decompiled`: index every source
function of the dataset by its correlation key. -/
def potential_mappings (source_dataset : List (String × SourceFunction)) :
    List (String × List SourceFunction) :=
  (source_dataset.map Prod.snd).foldl
    (fun m f => pmInsert m (SourceFunction.get_function_name f.uid) f) []

/-- The second loop of `_from_dataset_and_decompiled`: for each decompiled
function, skip it when its `name` is not in the index; otherwise optionally
strip it (an exception there aborts the whole call) and pair it with the
nested dataset built from the candidate group under the *resulting* record's
`name` (after stripping, that lookup uses the new placeholder name and fails
with `KeyError`). -/
def mapDecompiled (pm : List (String × List SourceFunction)) (stripped : Bool) :
    List DecompiledFunction →
    List (DecompiledFunction × List (String × SourceFunction)) →
    Except String (List (DecompiledFunction × List (String × SourceFunction)))
  | [], acc => .ok acc
  | d :: ds, acc =>
      match lookupDict pm d.name with
      | some _ =>
          match (if stripped then d.to_stripped else .ok d) with
          | .error e => .error e
          | .ok d2 =>
              match lookupDict pm d2.name with
              | some group =>
                  mapDecompiled pm stripped ds
                    (acc ++ [(d2, SourceCodeDataset.build group)])
              | none => .error "KeyError"
      | none => mapDecompiled pm stripped ds acc

/-- `DecompiledCodeDataset._from_dataset_and_decompiled` followed by
`DecompiledCodeDataset.__init__` (the final mapping keyed by the decompiled
record's uid). -/
def DecompiledCodeDataset.from_dataset_and_decompiled
    (source_dataset : List (String × SourceFunction))
    (decompiled_functions : List DecompiledFunction) (stripped : Bool) :
    Except String
      (List (String × (DecompiledFunction × List (String × SourceFunction)))) :=
  match mapDecompiled (potential_mappings source_dataset) stripped
      decompiled_functions [] with
  | .error e => .error e
  | .ok mappings => .ok (mappings.foldl (fun m p => dictInsert m p.1.uid p) [])

/-- C3: a source dataset of exactly two records sharing one correlation key,
plus one decompiled record carrying that key, produces exactly one entry
whose nested source dataset has exactly 2 members; and a decompiled record
whose key is absent from the index is dropped without an entry and without
raising. -/
theorem C3_correlation_pairing (f1 f2 : SourceFunction)
    (d dmiss : DecompiledFunction)
    (huid : f1.uid ≠ f2.uid)
    (h1 : SourceFunction.get_function_name f1.uid = d.name)
    (h2 : SourceFunction.get_function_name f2.uid = d.name)
    (hmiss : d.name ≠ dmiss.name) :
    DecompiledCodeDataset.from_dataset_and_decompiled
        (SourceCodeDataset.build [f1, f2]) [d] false =
      .ok [(d.uid, (d, SourceCodeDataset.build [f1, f2]))] ∧
    (SourceCodeDataset.build [f1, f2]).length = 2 ∧
    DecompiledCodeDataset.from_dataset_and_decompiled
        (SourceCodeDataset.build [f1, f2]) [dmiss] false = .ok [] := by
  have hbuild : SourceCodeDataset.build [f1, f2] =
      [(f1.uid, f1), (f2.uid, f2)] := by
    simp [SourceCodeDataset.build, dictInsert, huid]
  have hpm : potential_mappings (SourceCodeDataset.build [f1, f2]) =
      [(d.name, [f1, f2])] := by
    rw [hbuild]
    simp [potential_mappings, pmInsert, h1, h2]
  refine ⟨?_, ?_, ?_⟩
  · unfold DecompiledCodeDataset.from_dataset_and_decompiled
    rw [hpm]
    simp [mapDecompiled, lookupDict, dictInsert]
  · rw [hbuild]
    rfl
  · unfold DecompiledCodeDataset.from_dataset_and_decompiled
    rw [hpm]
    simp [mapDecompiled, lookupDict, hmiss]

/-- Witness for `C3_correlation_pairing` with two concrete overload records
and a matching / an unmatched decompiled record. -/
theorem C3_correlation_pairing_witness :
    DecompiledCodeDataset.from_dataset_and_decompiled
        (SourceCodeDataset.build
          [⟨"a.c::foo", "a.c", "C", "int foo;", "foo", 0, 8, none, []⟩,
           ⟨"b.c::foo", "b.c", "C", "int foo;", "foo", 0, 8, none, []⟩])
        [⟨"bin/f", "bin", [], "foo", [], "x86"⟩] false =
      .ok [("bin/f",
        (⟨"bin/f", "bin", [], "foo", [], "x86"⟩,
         SourceCodeDataset.build
          [⟨"a.c::foo", "a.c", "C", "int foo;", "foo", 0, 8, none, []⟩,
           ⟨"b.c::foo", "b.c", "C", "int foo;", "foo", 0, 8, none, []⟩]))] ∧
    (SourceCodeDataset.build
        [⟨"a.c::foo", "a.c", "C", "int foo;", "foo", 0, 8, none, []⟩,
         ⟨"b.c::foo", "b.c", "C", "int foo;", "foo", 0, 8, none, []⟩]).length
      = 2 ∧
    DecompiledCodeDataset.from_dataset_and_decompiled
        (SourceCodeDataset.build
          [⟨"a.c::foo", "a.c", "C", "int foo;", "foo", 0, 8, none, []⟩,
           ⟨"b.c::foo", "b.c", "C", "int foo;", "foo", 0, 8, none, []⟩])
        [⟨"bin/g", "bin", [], "bar", [], "x86"⟩] false = .ok [] :=
  C3_correlation_pairing
    ⟨"a.c::foo", "a.c", "C", "int foo;", "foo", 0, 8, none, []⟩
    ⟨"b.c::foo", "b.c", "C", "int foo;", "foo", 0, 8, none, []⟩
    ⟨"bin/f", "bin", [], "foo", [], "x86"⟩
    ⟨"bin/g", "bin", [], "bar", [], "x86"⟩
    (by decide) (by decide) (by decide) (by decide)

end Codablellm
